import Mathlib

/-
Verification of the markdown-transform core
(packages/markdown-slate/src/slateToCiceroMarkDom.js and the
CommonMarkTransformer in the same package).

The JavaScript is shallowly embedded: JSON objects become inductive values,
mutation becomes functional update, thrown errors become `Except.error`.
-/

set_option maxHeartbeats 1000000

namespace MT

/-! ## Data model: CiceroMark / CommonMark DOM nodes

A DOM node in the source is a plain JS object carrying a `$class` string,
a number of scalar fields (hoisted XML attributes or fields copied from
Slate `data`), optionally a `text` string, optionally a `tag` metadata
object, optionally source-location fields, and optionally a `nodes` array.
We model the scalar fields as an association list from field name to
optional string value (a `none` value models a field copied from an
absent JS property, i.e. `undefined`). -/

/-- An attribute entry of a `TagObj` (the source builds objects with
`$class`, `name` and `value` fields). -/
structure TagAttribute where
  cls : String
  name : String
  value : String

/-- The `tag` metadata object attached to HTML / code-block nodes by the
stream builder (`head.tag` in `fromMarkdown`). -/
structure TagObj where
  cls : String
  tagName : String
  attributeString : String
  attributes : List TagAttribute
  content : String
  closed : Bool

/-- Source-location fields copied onto a node when `enableSourceLocation`
is set: line, column, position, startTagPosition. -/
def Loc : Type := Nat × Nat × Nat × Nat

/-- A CiceroMark/CommonMark DOM node: `$class`, scalar fields, optional
`text`, optional `tag`, optional source location, optional `nodes` list.
`nodes = none` models a JS object with no `nodes` property at all, while
`nodes = some []` models a present but empty children array. -/
inductive CMNode where
  | mk (cls : String) (attrs : List (String × Option String)) (text : Option String)
       (tag : Option TagObj) (loc : Option Loc) (nodes : Option (List CMNode))

/-- The `$class` field of a node. -/
def CMNode.cls : CMNode → String
  | .mk c _ _ _ _ _ => c

/-- The scalar fields of a node. -/
def CMNode.attrs : CMNode → List (String × Option String)
  | .mk _ a _ _ _ _ => a

/-- The `text` field of a node. -/
def CMNode.text : CMNode → Option String
  | .mk _ _ t _ _ _ => t

/-- The `tag` field of a node. -/
def CMNode.tag : CMNode → Option TagObj
  | .mk _ _ _ tg _ _ => tg

/-- The source-location fields of a node. -/
def CMNode.loc : CMNode → Option Loc
  | .mk _ _ _ _ l _ => l

/-- The `nodes` (children) field of a node. -/
def CMNode.nodes : CMNode → Option (List CMNode)
  | .mk _ _ _ _ _ ns => ns

/-- Functional update of the `text` field (models `head.text = t`). -/
def CMNode.withText (n : CMNode) (t : Option String) : CMNode :=
  match n with
  | .mk c a _ tg l ns => .mk c a t tg l ns

/-- Functional update of the `tag` field (models `head.tag = ...`). -/
def CMNode.withTag (n : CMNode) (tg : Option TagObj) : CMNode :=
  match n with
  | .mk c a t _ l ns => .mk c a t tg l ns

/-- Functional update of the `nodes` field (models writes to `x.nodes`). -/
def CMNode.withNodes (n : CMNode) (ns : Option (List CMNode)) : CMNode :=
  match n with
  | .mk c a t tg l _ => .mk c a t tg l ns

/-- Read a hoisted scalar field by name (models `head.info` etc.). -/
def CMNode.getAttr (n : CMNode) (key : String) : Option String :=
  match n.attrs.lookup key with
  | some v => v
  | none => none

@[simp] theorem CMNode.cls_withText (n : CMNode) (t : Option String) :
    (n.withText t).cls = n.cls := by cases n; rfl

@[simp] theorem CMNode.cls_withTag (n : CMNode) (tg : Option TagObj) :
    (n.withTag tg).cls = n.cls := by cases n; rfl

@[simp] theorem CMNode.cls_withNodes (n : CMNode) (ns : Option (List CMNode)) :
    (n.withNodes ns).cls = n.cls := by cases n; rfl

@[simp] theorem CMNode.text_withText (n : CMNode) (t : Option String) :
    (n.withText t).text = t := by cases n; rfl

@[simp] theorem CMNode.text_withTag (n : CMNode) (tg : Option TagObj) :
    (n.withTag tg).text = n.text := by cases n; rfl

@[simp] theorem CMNode.nodes_withNodes (n : CMNode) (ns : Option (List CMNode)) :
    (n.withNodes ns).nodes = ns := by cases n; rfl

@[simp] theorem CMNode.withNodes_withNodes (n : CMNode) (a b : Option (List CMNode)) :
    (n.withNodes a).withNodes b = n.withNodes b := by cases n; rfl

theorem CMNode.withNodes_self (n : CMNode) (ns : Option (List CMNode)) (h : n.nodes = ns) :
    n.withNodes ns = n := by cases n; cases h; rfl

/-- Namespace constant `NS` from slateToCiceroMarkDom.js. -/
def NS : String := "org.accordproject.commonmark"

/-- Namespace constant `NS_CICERO` from slateToCiceroMarkDom.js. -/
def NS_CICERO : String := "org.accordproject.ciceromark"

/-- Helper building a node with no `tag` and no source location, the shape
produced by the Slate mapper (its object literals never carry those). -/
def mkNode (cls : String) (attrs : List (String × Option String)) (text : Option String)
    (nodes : Option (List CMNode)) : CMNode :=
  CMNode.mk cls attrs text none none nodes

@[simp] theorem mkNode_cls (c a t ns) : (mkNode c a t ns).cls = c := rfl
@[simp] theorem mkNode_nodes (c a t ns) : (mkNode c a t ns).nodes = ns := rfl
@[simp] theorem mkNode_text (c a t ns) : (mkNode c a t ns).text = t := rfl
@[simp] theorem mkNode_withNodes (c a t ns ns2) :
    (mkNode c a t ns).withNodes ns2 = mkNode c a t ns2 := rfl

/-! ## Data model: Slate editor nodes -/

/-- A formatting mark on a Slate text node; the source only ever reads
`mark.type`. -/
structure Mark where
  type : String

/-- The `data` bag of a Slate element node.  Only the fields the mapper
reads are modelled; each is optional since the JS property may be absent. -/
structure SlateData where
  clauseid : Option String := none
  src : Option String := none
  clauseText : Option String := none
  id : Option String := none
  value : Option String := none
  href : Option String := none
  delimiter : Option String := none
  start : Option String := none
  tight : Option String := none

/-- A Slate node: either an `object: 'text'` node (raw text plus marks) or
an element node with a `type`, a `data` bag, an optional own `text` field
(read by `code_block` / `html_block`) and an optional `nodes` array. -/
inductive SlateNode where
  | text (text : String) (marks : List Mark)
  | element (type : String) (data : SlateData) (text : Option String)
            (nodes : Option (List SlateNode))

/-! ## Mark Composer: `handleText` -/

/-- Embedding of `handleText` (slateToCiceroMarkDom.js lines 139-188).
The source allocates optional `strong` / `emph` wrappers and pushes the
text leaf into the innermost one; the final `match` reproduces exactly the
four possible wirings of that code. -/
def handleText (ntext : String) (marks : List Mark) : CMNode :=
  let isBold := marks.any (fun mark => mark.type == "bold")
  let isItalic := marks.any (fun mark => mark.type == "italic")
  let isCode := marks.any (fun mark => mark.type == "code")
  if isCode then mkNode (NS ++ ".Code") [] (some ntext) none
  else
    let text := mkNode (NS ++ ".Text") [] (some ntext) none
    let strong : Option CMNode :=
      if isBold then some (mkNode (NS ++ ".Strong") [] none (some [])) else none
    let emph : Option CMNode :=
      if isItalic then some (mkNode (NS ++ ".Emph") [] none (some [])) else none
    match strong, emph with
    | some s, some e => e.withNodes (some [s.withNodes (some [text])])
    | some s, none => s.withNodes (some [text])
    | none, some e => e.withNodes (some [text])
    | none, none => text

/-! ## Editor-to-Canonical Mapper: `_recursive` -/

/-- The per-type dispatch of `_recursive` (the inner `switch(node.type)`,
lines 53-115).  Returns `none` exactly when no case matches, which the
caller turns into the fatal `Failed to process node` error. -/
def dispatchElement (ty : String) (data : SlateData) (ntext : Option String) : Option CMNode :=
  if ty = "clause" then
    some (mkNode (NS_CICERO ++ ".Clause")
      [("clauseid", data.clauseid), ("src", data.src), ("clauseText", data.clauseText)]
      none (some []))
  else if ty = "variable" then
    some (mkNode (NS_CICERO ++ ".Variable") [("id", data.id), ("value", data.value)] none (some []))
  else if ty = "computed" then
    some (mkNode (NS_CICERO ++ ".ComputedVariable") [("value", data.value)] none (some []))
  else if ty = "paragraph" then
    some (mkNode (NS ++ ".Paragraph") [] none (some []))
  else if ty = "quote" then
    some (mkNode (NS ++ ".BlockQuote") [] none none)
  else if ty = "horizontal_rule" then
    some (mkNode (NS ++ ".ThematicBreak") [] none none)
  else if ty = "heading_one" then
    some (mkNode (NS ++ ".Heading") [("level", some "1")] none (some []))
  else if ty = "heading_two" then
    some (mkNode (NS ++ ".Heading") [("level", some "2")] none (some []))
  else if ty = "heading_three" then
    some (mkNode (NS ++ ".Heading") [("level", some "3")] none (some []))
  else if ty = "heading_four" then
    some (mkNode (NS ++ ".Heading") [("level", some "4")] none (some []))
  else if ty = "heading_five" then
    some (mkNode (NS ++ ".Heading") [("level", some "5")] none (some []))
  else if ty = "heading_six" then
    some (mkNode (NS ++ ".Heading") [("level", some "6")] none (some []))
  else if ty = "block_quote" then
    some (mkNode (NS ++ ".BlockQuote") [] none (some []))
  else if ty = "code_block" then
    some (mkNode (NS ++ ".CodeBlock") [] ntext none)
  else if ty = "html_block" then
    some (mkNode (NS ++ ".HtmlBlock") [] ntext none)
  else if ty = "html_inline" then
    some (mkNode (NS ++ ".HtmlInline") [] none none)
  else if ty = "ol_list" ∨ ty = "ul_list" then
    some (mkNode (NS ++ ".List")
      [("type", some (if ty = "ol_list" then "ordered" else "bullet")),
       ("delimiter", data.delimiter), ("start", data.start), ("tight", data.tight)]
      none (some []))
  else if ty = "list_item" then
    some (mkNode (NS ++ ".Item") [] none
      (some [mkNode (NS ++ ".Paragraph") [] none (some [])]))
  else if ty = "link" then
    some (mkNode (NS ++ ".Link") [("destination", data.href), ("title", some "")] none (some []))
  else none

/-- The `nodes` array of a Slate node (text nodes have none). -/
def SlateNode.childNodes : SlateNode → Option (List SlateNode)
  | .text _ _ => none
  | .element _ _ _ ns => ns

mutual

/-- Embedding of the per-node body of `_recursive` (lines 45-131): compute
`result` (throwing `Failed to process node` when no case matches), then,
when both the Slate node and `result` carry a `nodes` array, recurse into
`result.nodes[0]` if it exists and into `result` itself otherwise. -/
def mapNode : SlateNode → Except String CMNode
  | SlateNode.text t marks => Except.ok (handleText t marks)
  | SlateNode.element ty d tx none =>
    match dispatchElement ty d tx with
    | none => Except.error "Failed to process node"
    | some result => Except.ok result
  | SlateNode.element ty d tx (some children) =>
    match dispatchElement ty d tx with
    | none => Except.error "Failed to process node"
    | some result =>
      match result.nodes with
      | none => Except.ok result
      | some [] =>
        mapInto result children
      | some (first :: others) =>
        match mapInto first children with
        | Except.error e => Except.error e
        | Except.ok first2 => Except.ok (result.withNodes (some (first2 :: others)))

/-- Embedding of the `nodes.forEach` loop of `_recursive`: each Slate node
is converted and appended to `parent.nodes`, throwing when the parent has
no `nodes` array (line 127-129). -/
def mapInto (parent : CMNode) : List SlateNode → Except String CMNode
  | [] => Except.ok parent
  | n :: rest =>
    match mapNode n with
    | Except.error e => Except.error e
    | Except.ok r =>
      match parent.nodes with
      | none => Except.error "Parent node does not have children"
      | some pns => mapInto (parent.withNodes (some (pns ++ [r]))) rest

end

/-- Embedding of `slateToCiceroMarkDom` (lines 25-36): build the Document
root and run `_recursive` over the top-level Slate nodes. -/
def slateToCiceroMarkDom (docNodes : List SlateNode) : Except String CMNode :=
  let result := mkNode (NS ++ ".Document")
    [("xmlns", some "http://commonmark.org/xml/1.0")] none (some [])
  mapInto result docNodes

/-- A `SlateData` with every field absent. -/
def emptySlateData : SlateData := {}

/-- The element `type` strings handled by the `switch(node.type)` of
`_recursive`; any element whose type is outside this list falls through to
the fatal `Failed to process node` error. -/
def recognizedElementTypes : List String :=
  ["clause", "variable", "computed", "paragraph", "quote", "horizontal_rule",
   "heading_one", "heading_two", "heading_three", "heading_four", "heading_five",
   "heading_six", "block_quote", "code_block", "html_block", "html_inline",
   "ol_list", "ul_list", "list_item", "link"]

/-- Whether a conversion result is the fatal-error outcome. -/
def isErr : Except String CMNode → Bool
  | Except.error _ => true
  | Except.ok _ => false

/-- Pointwise sequential mapping of a list of Slate nodes, used to state
what the children of a produced node are.  It fails exactly when `mapNode`
fails on the first failing element, like the `forEach` loop does. -/
def mapList : List SlateNode → Except String (List CMNode)
  | [] => Except.ok []
  | n :: rest =>
    match mapNode n with
    | Except.error e => Except.error e
    | Except.ok r =>
      match mapList rest with
      | Except.error e => Except.error e
      | Except.ok rs => Except.ok (r :: rs)

/-- The `forEach` loop over a parent that owns a children list is exactly
the pointwise mapping appended to that list. -/
theorem mapInto_eq_mapList (cs : List SlateNode) :
    ∀ (p : CMNode) (ns : List CMNode), p.nodes = some ns →
      mapInto p cs =
        match mapList cs with
        | Except.error e => Except.error e
        | Except.ok rs => Except.ok (p.withNodes (some (ns ++ rs))) := by
  induction cs with
  | nil =>
    intro p ns h
    simp [mapInto, mapList, CMNode.withNodes_self p (some ns) h]
  | cons c rest ih =>
    intro p ns h
    rw [mapInto]
    cases hc : mapNode c with
    | error e => simp [mapList, hc]
    | ok r =>
      simp only [hc, h]
      have hstep := ih (p.withNodes (some (ns ++ [r]))) (ns ++ [r]) (by simp)
      rw [hstep]
      simp only [mapList, hc]
      cases hrest : mapList rest with
      | error e => simp
      | ok rs => simp [List.append_assoc]

/-- An element whose type is outside the recognized list matches no case
of the dispatch switch. -/
theorem dispatchElement_unrecognized (ty : String) (d : SlateData) (tx : Option String)
    (h : ty ∉ recognizedElementTypes) : dispatchElement ty d tx = none := by
  simp only [recognizedElementTypes, List.mem_cons, List.not_mem_nil, or_false, not_or] at h
  obtain ⟨h1, h2, h3, h4, h5, h6, h7, h8, h9, h10, h11, h12, h13, h14, h15, h16, h17,
    h18, h19, h20⟩ := h
  simp [dispatchElement, h1, h2, h3, h4, h5, h6, h7, h8, h9, h10, h11, h12, h13, h14,
    h15, h16, h17, h18, h19, h20]

/-- Converting an element with an unrecognized type is the fatal error. -/
theorem mapNode_unrecognized (ty : String) (d : SlateData) (tx : Option String)
    (ch : Option (List SlateNode)) (h : ty ∉ recognizedElementTypes) :
    mapNode (SlateNode.element ty d tx ch) = Except.error "Failed to process node" := by
  cases ch with
  | none => rw [mapNode, dispatchElement_unrecognized ty d tx h]
  | some children => rw [mapNode, dispatchElement_unrecognized ty d tx h]

/-- A node that fails to convert makes the whole surrounding loop fail,
wherever it sits in the list. -/
theorem mapInto_error_of_mem (b : SlateNode) (e : String) (post : List SlateNode)
    (hb : mapNode b = Except.error e) :
    ∀ (pre : List SlateNode) (p : CMNode), isErr (mapInto p (pre ++ b :: post)) = true := by
  intro pre
  induction pre with
  | nil =>
    intro p
    rw [List.nil_append, mapInto, hb]
    rfl
  | cons x xs ih =>
    intro p
    rw [List.cons_append, mapInto]
    cases hx : mapNode x with
    | error e2 => rfl
    | ok r =>
      cases hp : p.nodes with
      | none => rfl
      | some pns => exact ih (p.withNodes (some (pns ++ [r])))

/-! ## CommonMarkTransformer: tag classifier -/

/-- Modelled from the spec: the canonical namespace prefix
(`COMMON_NS_PREFIX` imported from `./Models`, a file that is not part of
the sources).  The spec names `org.accordproject.commonmark` as the
canonical namespace, and `isLeafNode` compares it against the
`$class` values built in slateToCiceroMarkDom.js, which fixes the
trailing dot. -/
def commonNsPre : String := "org.accordproject.commonmark."

/-- Embedding of `capitalizeFirstLetter` (lines 411-413):
`string.charAt(0).toUpperCase() + string.slice(1)`; on the empty string
both pieces are empty.  `Char.toUpper` models `toUpperCase` for the ASCII
range the tag names live in. -/
def capitalizeFirstLetter (s : String) : String :=
  match s.data with
  | [] => ""
  | c :: rest => String.mk (c.toUpper :: rest)

/-- The global regex replace `name.replace(/_([a-z])/g, g =>
g[1].toUpperCase())` of `toClass`, as a left-to-right scan: an underscore
immediately followed by a lowercase ASCII letter (`Char.isLower` is
exactly `[a-z]`) is replaced by that letter upper-cased; every other
character is kept and the scan resumes after it. -/
def camelChars : List Char → List Char
  | [] => []
  | [c] => [c]
  | c :: c2 :: rest =>
    if c = '_' ∧ c2.isLower then c2.toUpper :: camelChars rest
    else c :: camelChars (c2 :: rest)

/-- Embedding of `toClass` (lines 420-423). -/
def toClass (name : String) : String :=
  let camelCased := String.mk (camelChars name.data)
  commonNsPre ++ capitalizeFirstLetter camelCased

/-- Modelled from the spec wording of the classifier algorithm, for
comparison with the code: EVERY character that follows an underscore is
upper-cased and the underscores are removed, with no condition on that
character. -/
def claimCamelChars : List Char → List Char
  | [] => []
  | [c] => if c = '_' then [] else [c]
  | c :: c2 :: rest =>
    if c = '_' then c2.toUpper :: claimCamelChars rest
    else c :: claimCamelChars (c2 :: rest)

/-- Tag names in which every underscore is immediately followed by a
lowercase ASCII letter — the shape of every tag name the commonmark XML
renderer emits. -/
def goodName : List Char → Bool
  | [] => true
  | [c] => c != '_'
  | c :: c2 :: rest =>
    if c = '_' then c2.isLower && goodName rest
    else goodName (c2 :: rest)

/-- On good names the regex scan of the code agrees with the
unconditional underscore-removal the spec describes. -/
theorem camelChars_eq_claim : ∀ (l : List Char), goodName l = true →
    camelChars l = claimCamelChars l
  | [], _ => rfl
  | [c], h => by
    have hc : c ≠ '_' := by simpa [goodName] using h
    have e1 : camelChars [c] = [c] := rfl
    have e2 : claimCamelChars [c] = if c = '_' then [] else [c] := rfl
    rw [e1, e2, if_neg hc]
  | c :: c2 :: rest, h => by
    have e0 : goodName (c :: c2 :: rest) =
        if c = '_' then c2.isLower && goodName rest else goodName (c2 :: rest) := rfl
    have e1 : camelChars (c :: c2 :: rest) =
        if c = '_' ∧ c2.isLower then c2.toUpper :: camelChars rest
        else c :: camelChars (c2 :: rest) := rfl
    have e2 : claimCamelChars (c :: c2 :: rest) =
        if c = '_' then c2.toUpper :: claimCamelChars rest
        else c :: claimCamelChars (c2 :: rest) := rfl
    rw [e0] at h
    rw [e1, e2]
    by_cases hc : c = '_'
    · rw [if_pos hc] at h
      rw [Bool.and_eq_true] at h
      obtain ⟨hlow, hrest⟩ := h
      rw [if_pos ⟨hc, hlow⟩, if_pos hc, camelChars_eq_claim rest hrest]
    · rw [if_neg hc] at h
      have hcc : ¬(c = '_' ∧ c2.isLower) := fun hh => hc hh.1
      rw [if_neg hcc, if_neg hc, camelChars_eq_claim (c2 :: rest) h]

/-! ## CommonMarkTransformer: HTML fragment inspector -/

/-- The root element handed back by the external `xmldom` `DOMParser`:
tag name, attribute list (in document order) and text content. -/
structure DomItem where
  tagName : String
  attributes : List (String × String)
  textContent : String

/-- The external HTML parser, treated as a black box: the child-node list
of `parseFromString`.  An empty list models a document whose
`childNodes[0]` is `undefined`. -/
def Dom : Type := String → List DomItem

/-- The tag record returned by `parseHtmlBlock`. -/
structure HtmlTag where
  tag : String
  attributes : List (String × String)
  attributeString : String
  content : String
  closed : Bool

/-- The body of the `try` block of `parseHtmlBlock` (lines 431-457):
reading fields of an absent root element throws, modelled as
`Except.error`. -/
def parseHtmlBlockTry (dom : Dom) (s : String) : Except String HtmlTag :=
  let doc := dom s
  match doc.head? with
  | none => Except.error "TypeError"
  | some item =>
    let attributeString := List.foldl
      (fun acc (p : String × String) => acc ++ p.1 ++ " = \"" ++ p.2 ++ "\" ") ""
      item.attributes
    Except.ok
      { tag := item.tagName.toLower
        attributes := item.attributes
        attributeString := attributeString
        content := item.textContent
        closed := s.endsWith "/>" }

/-- Embedding of `parseHtmlBlock`: the `try ... catch` returns `null` on
any thrown error. -/
def parseHtmlBlock (dom : Dom) (s : String) : Option HtmlTag :=
  match parseHtmlBlockTry dom s with
  | Except.ok t => some t
  | Except.error _ => none

/-! ## CommonMarkTransformer: stream-to-tree builder -/

/-- The constructor options of `CommonMarkTransformer`. -/
structure Options where
  trimText : Bool := false
  enableSourceLocation : Bool := false
  noIndex : Bool := false
  tagInfo : Bool := false

/-- Embedding of `isLeafNode` (lines 245-251). -/
def isLeafNode (json : CMNode) : Bool :=
  json.cls == commonNsPre ++ "Text" ||
  json.cls == commonNsPre ++ "CodeBlock" ||
  json.cls == commonNsPre ++ "HtmlInline" ||
  json.cls == commonNsPre ++ "HtmlBlock" ||
  json.cls == commonNsPre ++ "Code"

/-- Embedding of `isHtmlNode` (lines 258-261). -/
def isHtmlNode (json : CMNode) : Bool :=
  json.cls == commonNsPre ++ "HtmlInline" ||
  json.cls == commonNsPre ++ "HtmlBlock"

/-- Embedding of `isCodeBlockNode` (lines 268-270). -/
def isCodeBlockNode (json : CMNode) : Bool :=
  json.cls == commonNsPre ++ "CodeBlock"

/-- Builds the `head.tag` object from a parsed tag (lines 321-337); the
`for (const attName in tagInfo.attributes)` loop visits the attributes in
insertion order. -/
def mkTagObj (ti : HtmlTag) : TagObj :=
  { cls := commonNsPre ++ "TagInfo"
    tagName := ti.tag
    attributeString := ti.attributeString
    attributes := ti.attributes.map (fun p =>
      { cls := commonNsPre ++ "Attribute", name := p.1, value := p.2 })
    content := ti.content
    closed := ti.closed }

/-- The mutations `ontext` applies to the top frame once the text has
been found non-empty (lines 314-339): assign `text` on leaf kinds, then
possibly attach the `tag` metadata on HTML / code-block kinds. -/
def ontextHead (opts : Options) (dom : Dom) (t : String) (head : CMNode) : CMNode :=
  let head1 := if isLeafNode head then head.withText (some t) else head
  if isHtmlNode head1 || isCodeBlockNode head1 then
    let maybeHtmlText := if isHtmlNode head1 then head1.text else head1.getAttr "info"
    let tagInfo := if opts.tagInfo then
        match maybeHtmlText with
        | some s => parseHtmlBlock dom s
        | none => none
      else none
    match tagInfo with
    | some ti => head1.withTag (some (mkTagObj ti))
    | none => head1
  else head1

/-- Embedding of the `ontext` handler (lines 307-341).  The stack is a
list with its top at the head; mutating the head becomes replacing it. -/
def ontext (opts : Options) (dom : Dom) (t0 : String) (stack : List CMNode) : List CMNode :=
  let t := if opts.trimText then t0.trim else t0
  match stack with
  | [] => []
  | head :: rest =>
    if t.length > 0 then ontextHead opts dom t head :: rest
    else stack

/-- Embedding of the `onopentag` handler (lines 342-367): classify the
tag, optionally record the source location, hoist the attributes, lazily
initialize the children list of the current top, and push.  The `Stack`
helper class is not part of the sources; modelled from the spec, it is a
strict LIFO stack whose `push` links the new node into the parent that is
then on top — in this functional embedding that linking is performed when
the child is popped, which yields the same finished tree as the mutable
original where the parent holds a reference from push time. -/
def onopentag (opts : Options) (name : String) (attributes : List (String × String))
    (loc : Loc) (stack : List CMNode) : List CMNode :=
  let newNode := CMNode.mk (toClass name)
    (attributes.map (fun p => (p.1, some p.2)))
    none none (if opts.enableSourceLocation then some loc else none) none
  match stack with
  | [] => [newNode]
  | head :: rest =>
    let head1 := match head.nodes with
      | none => head.withNodes (some [])
      | some _ => head
    newNode :: head1 :: rest

/-- Embedding of the `onclosetag` handler (lines 368-374): pop unless the
document tag is being closed; on pop the finished child is appended to
the children of the node below it (see `onopentag` on the modelled
`Stack`). -/
def onclosetag (name : String) (stack : List CMNode) : List CMNode :=
  if name = "document" then stack
  else
    match stack with
    | child :: parent :: rest =>
      parent.withNodes (some ((parent.nodes.getD []) ++ [child])) :: rest
    | _ :: [] => []
    | [] => []

/-- An event of the sax stream: open tag (with attributes and the parser
position data read under `enableSourceLocation`), text, or close tag. -/
inductive Event where
  | openTag (name : String) (attributes : List (String × String)) (loc : Loc)
  | textEv (t : String)
  | closeTag (name : String)

/-- Dispatch one sax event to its handler. -/
def step (opts : Options) (dom : Dom) (stack : List CMNode) : Event → List CMNode
  | Event.openTag name attributes loc => onopentag opts name attributes loc stack
  | Event.textEv t => ontext opts dom t stack
  | Event.closeTag name => onclosetag name stack

/-- Run the builder over a whole event stream. -/
def runEvents (opts : Options) (dom : Dom) (events : List Event)
    (stack : List CMNode) : List CMNode :=
  events.foldl (step opts dom) stack

/-- `stack.peek()`: the element `fromMarkdown` returns after the stream
ends. -/
def peek (stack : List CMNode) : Option CMNode := stack.head?

/-- Default constructor options (no options object passed). -/
def defaultOptions : Options := {}

/-- A black-box HTML parser that finds no root element in anything. -/
def emptyDom : Dom := fun _ => []

theorem runEvents_append (opts : Options) (dom : Dom) (xs ys : List Event)
    (stack : List CMNode) :
    runEvents opts dom (xs ++ ys) stack = runEvents opts dom ys (runEvents opts dom xs stack) := by
  simp [runEvents, List.foldl_append]

/-! ## Well-formed event streams

The spec quantifies over well-formed streams: every open has a matching
close and the document element wraps everything.  Properly matched
open/close structure is exactly the image of flattening a forest of
element/text trees. -/

mutual

/-- A properly nested markup element or text run. -/
inductive ETree where
  | elem (name : String) (attributes : List (String × String)) (loc : Loc) (children : EForest)
  | txt (s : String)

/-- A sequence of properly nested siblings. -/
inductive EForest where
  | nil
  | cons (t : ETree) (f : EForest)

end

mutual

/-- The event stream of one properly nested element or text run. -/
def flattenT : ETree → List Event
  | ETree.elem name attributes loc children =>
    Event.openTag name attributes loc :: (flattenF children ++ [Event.closeTag name])
  | ETree.txt s => [Event.textEv s]

/-- The event stream of a sequence of siblings. -/
def flattenF : EForest → List Event
  | EForest.nil => []
  | EForest.cons t f => flattenT t ++ flattenF f

end

mutual

/-- No element of the tree uses the reserved document tag name. -/
def noDocT : ETree → Bool
  | ETree.elem name _ _ children => (name != "document") && noDocF children
  | ETree.txt _ => true

/-- No element of the forest uses the reserved document tag name. -/
def noDocF : EForest → Bool
  | EForest.nil => true
  | EForest.cons t f => noDocT t && noDocF f

end

theorem runEvents_nil (opts : Options) (dom : Dom) (stack : List CMNode) :
    runEvents opts dom [] stack = stack := rfl

theorem runEvents_cons (opts : Options) (dom : Dom) (e : Event) (l : List Event)
    (stack : List CMNode) :
    runEvents opts dom (e :: l) stack = runEvents opts dom l (step opts dom stack e) := rfl

/-- Whatever `ontext` does to the top frame leaves its `$class` alone. -/
theorem ontextHead_cls (opts : Options) (dom : Dom) (t : String) (head : CMNode) :
    (ontextHead opts dom t head).cls = head.cls := by
  simp only [ontextHead]
  repeat' split
  all_goals simp

/-- On a leaf-kind top frame, `ontext` assigns the text and the later tag
attachment does not undo it. -/
theorem ontextHead_text_of_leaf (opts : Options) (dom : Dom) (t : String) (head : CMNode)
    (hleaf : isLeafNode head = true) :
    (ontextHead opts dom t head).text = some t := by
  simp only [ontextHead, hleaf, if_true]
  repeat' split
  all_goals simp

/-- A text event on a non-empty stack only rewrites the top frame. -/
theorem ontext_cons (opts : Options) (dom : Dom) (t0 : String) (head : CMNode)
    (rest : List CMNode) :
    ontext opts dom t0 (head :: rest) =
      (if (if opts.trimText then t0.trim else t0).length > 0
        then ontextHead opts dom (if opts.trimText then t0.trim else t0) head
        else head) :: rest := by
  by_cases hc : (if opts.trimText then t0.trim else t0).length > 0
  · simp [ontext, hc]
  · simp [ontext, hc]

mutual

/-- Running the events of one properly nested non-document element or
text run on a non-empty stack only rewrites the top frame (and keeps its
`$class`). -/
theorem runFlattenT_shape (opts : Options) (dom : Dom) (t : ETree) (h : CMNode)
    (rest : List CMNode) (hnd : noDocT t = true) :
    ∃ h2, runEvents opts dom (flattenT t) (h :: rest) = h2 :: rest ∧ h2.cls = h.cls := by
  cases t with
  | txt s =>
    refine ⟨if (if opts.trimText then s.trim else s).length > 0
        then ontextHead opts dom (if opts.trimText then s.trim else s) h else h, ?_, ?_⟩
    · rw [flattenT, runEvents_cons, runEvents_nil]
      exact ontext_cons opts dom s h rest
    · repeat' split
      all_goals first
        | exact ontextHead_cls opts dom _ h
        | rfl
  | elem name attributes loc children =>
    simp only [noDocT, Bool.and_eq_true, bne_iff_ne, ne_eq] at hnd
    obtain ⟨hname, hch⟩ := hnd
    cases hn : h.nodes with
    | none =>
      obtain ⟨n2, heq2, hcls2⟩ := runFlattenT_shape_forest opts dom children
        (CMNode.mk (toClass name) (attributes.map (fun p => (p.1, some p.2))) none none
          (if opts.enableSourceLocation then some loc else none) none)
        (h.withNodes (some []) :: rest) hch
      refine ⟨h.withNodes (some [n2]), ?_, by simp⟩
      rw [flattenT, runEvents_cons]
      have hopen : step opts dom (h :: rest) (Event.openTag name attributes loc) =
          CMNode.mk (toClass name) (attributes.map (fun p => (p.1, some p.2))) none none
            (if opts.enableSourceLocation then some loc else none) none ::
          h.withNodes (some []) :: rest := by
        simp [step, onopentag, hn]
      rw [hopen, runEvents_append, heq2, runEvents_cons, runEvents_nil]
      simp [step, onclosetag, hname]
    | some ns =>
      obtain ⟨n2, heq2, hcls2⟩ := runFlattenT_shape_forest opts dom children
        (CMNode.mk (toClass name) (attributes.map (fun p => (p.1, some p.2))) none none
          (if opts.enableSourceLocation then some loc else none) none)
        (h :: rest) hch
      refine ⟨h.withNodes (some (ns ++ [n2])), ?_, by simp⟩
      rw [flattenT, runEvents_cons]
      have hopen : step opts dom (h :: rest) (Event.openTag name attributes loc) =
          CMNode.mk (toClass name) (attributes.map (fun p => (p.1, some p.2))) none none
            (if opts.enableSourceLocation then some loc else none) none ::
          h :: rest := by
        simp [step, onopentag, hn]
      rw [hopen, runEvents_append, heq2, runEvents_cons, runEvents_nil]
      simp [step, onclosetag, hname, hn]

/-- Running the events of a properly nested non-document forest on a
non-empty stack only rewrites the top frame (and keeps its `$class`). -/
theorem runFlattenT_shape_forest (opts : Options) (dom : Dom) (f : EForest) (h : CMNode)
    (rest : List CMNode) (hnd : noDocF f = true) :
    ∃ h2, runEvents opts dom (flattenF f) (h :: rest) = h2 :: rest ∧ h2.cls = h.cls := by
  cases f with
  | nil => exact ⟨h, rfl, rfl⟩
  | cons t f2 =>
    simp only [noDocF, Bool.and_eq_true] at hnd
    obtain ⟨ht, hf⟩ := hnd
    obtain ⟨h2, heq2, hcls2⟩ := runFlattenT_shape opts dom t h rest ht
    obtain ⟨h3, heq3, hcls3⟩ := runFlattenT_shape_forest opts dom f2 h2 rest hf
    refine ⟨h3, ?_, hcls3.trans hcls2⟩
    rw [flattenF, runEvents_append, heq2, heq3]

end

/-! ## Concrete fixtures used by the claim theorems -/

/-- A Text frame with no text assigned yet, exactly as `onopentag` pushes
it for a `<text>` tag without attributes. -/
def textFrame : CMNode := CMNode.mk (commonNsPre ++ "Text") [] none none none none

/-- An arbitrary parser position. -/
def docLoc : Loc := (0, 0, 0, 0)

/-! ## Claims -/

/-- C1: the claim states that a `quote` editor node maps to a BlockQuote
owning a present (possibly empty) children list with the mapped editor
children appended in order.  The code instead builds the BlockQuote of a
`quote` node without any `nodes` list, so the recursion guard skips the
children and they are silently dropped; the `block_quote` case of the
same switch (evaluated here on the same child for contrast) shows the
intended shape with the children list present and filled. -/
theorem quote_drops_children :
    mapNode (SlateNode.element "quote" emptySlateData none
      (some [SlateNode.element "paragraph" emptySlateData none none])) =
      Except.ok (mkNode (NS ++ ".BlockQuote") [] none none) ∧
    (mkNode (NS ++ ".BlockQuote") [] none none).nodes = none ∧
    mapNode (SlateNode.element "block_quote" emptySlateData none
      (some [SlateNode.element "paragraph" emptySlateData none none])) =
      Except.ok (mkNode (NS ++ ".BlockQuote") [] none
        (some [mkNode (NS ++ ".Paragraph") [] none (some [])])) :=
  ⟨rfl, rfl, rfl⟩

/-- C2 counterexample: the claim says a text event is assigned to a
leaf-kind top frame even when the content is the empty string; the code
guards the assignment with `t.length > 0`, so an empty text event leaves
the frame untouched and its `text` field stays absent instead of
becoming the empty string. -/
theorem ontext_empty_text_not_assigned :
    isLeafNode textFrame = true ∧
    ontext defaultOptions emptyDom "" [textFrame] = [textFrame] ∧
    textFrame.text ≠ some "" :=
  ⟨rfl, rfl, by simp [textFrame, CMNode.text]⟩

/-- C2 (amended): on a text event with a leaf-kind top frame, when the
(possibly trimmed) content is non-empty, the builder assigns that content
to the top frame's `text` field; the rest of the stack and the frame's
variant are untouched. -/
theorem ontext_assigns_nonempty_text (opts : Options) (dom : Dom) (t : String)
    (head : CMNode) (rest : List CMNode)
    (hleaf : isLeafNode head = true)
    (hne : (if opts.trimText then t.trim else t).length > 0) :
    ∃ h2, ontext opts dom t (head :: rest) = h2 :: rest ∧
      h2.text = some (if opts.trimText then t.trim else t) ∧ h2.cls = head.cls := by
  refine ⟨ontextHead opts dom (if opts.trimText then t.trim else t) head, ?_, ?_, ?_⟩
  · rw [ontext_cons, if_pos hne]
  · exact ontextHead_text_of_leaf opts dom _ head hleaf
  · exact ontextHead_cls opts dom _ head

/-- C2 witness: a non-empty text event on a Text frame. -/
theorem ontext_assigns_nonempty_text_witness :
    isLeafNode textFrame = true ∧
    (if defaultOptions.trimText then String.trim "hi" else "hi").length > 0 ∧
    (∃ h2, ontext defaultOptions emptyDom "hi" (textFrame :: []) = h2 :: [] ∧
      h2.text = some (if defaultOptions.trimText then String.trim "hi" else "hi") ∧
      h2.cls = textFrame.cls) :=
  ⟨rfl, by decide,
   ontext_assigns_nonempty_text defaultOptions emptyDom "hi" textFrame [] rfl (by decide)⟩

/-- C3 counterexample: the claim says every character following an
underscore is upper-cased and the underscore removed; on the tag name
`a_1` the code's regex (which only matches `_` followed by a lowercase
letter) keeps the underscore, while the claimed rule would drop it. -/
theorem toClass_underscore_nonletter_cex :
    toClass "a_1" = "org.accordproject.commonmark.A_1" ∧
    commonNsPre ++ capitalizeFirstLetter (String.mk (claimCamelChars (String.data "a_1"))) =
      "org.accordproject.commonmark.A1" ∧
    toClass "a_1" ≠
      commonNsPre ++ capitalizeFirstLetter (String.mk (claimCamelChars (String.data "a_1"))) :=
  ⟨by decide, by decide, by decide⟩

/-- C3 (amended): on every tag name in which each underscore is followed
by a lowercase ASCII letter (all tag names the event source produces),
the classifier returns the canonical namespace prefix followed by the
camel-cased name with the first letter capitalized, exactly as the claim
describes; it is a total function. -/
theorem toClass_camel_on_good_names (name : String) (h : goodName name.data = true) :
    toClass name =
      commonNsPre ++ capitalizeFirstLetter (String.mk (claimCamelChars name.data)) := by
  have e : toClass name =
      commonNsPre ++ capitalizeFirstLetter (String.mk (camelChars name.data)) := rfl
  rw [e, camelChars_eq_claim name.data h]

/-- C3 witness: the classifier on `block_quote`. -/
theorem toClass_camel_on_good_names_witness :
    goodName (String.data "block_quote") = true ∧
    toClass "block_quote" =
      commonNsPre ++ capitalizeFirstLetter
        (String.mk (claimCamelChars (String.data "block_quote"))) ∧
    toClass "block_quote" = "org.accordproject.commonmark.BlockQuote" :=
  ⟨rfl, toClass_camel_on_good_names "block_quote" rfl, by decide⟩

/-- C4 counterexample: the claim's well-formedness (every open has a
matching close, the document open first and its close last) also admits a
stream with a nested `document` element; the close handler decides by tag
name alone, so neither close pops and two frames remain on the stack
instead of exactly one. -/
theorem nested_document_tags_cex :
    (runEvents defaultOptions emptyDom
      [Event.openTag "document" [] docLoc, Event.openTag "document" [] docLoc,
       Event.closeTag "document", Event.closeTag "document"] []).length = 2 :=
  rfl

/-- C4 (amended): for every well-formed event stream in which no event
other than the first open and the last close uses the document tag, the
builder pops on every inner close, and after stream end the stack holds
exactly one element — the document node — which `peek` returns as the
result. -/
theorem stack_balance_unique_document (opts : Options) (dom : Dom)
    (attributes : List (String × String)) (loc : Loc) (f : EForest)
    (hf : noDocF f = true) :
    ∃ d, runEvents opts dom
        (Event.openTag "document" attributes loc ::
          (flattenF f ++ [Event.closeTag "document"])) [] = [d] ∧
      d.cls = toClass "document" ∧
      peek (runEvents opts dom
        (Event.openTag "document" attributes loc ::
          (flattenF f ++ [Event.closeTag "document"])) []) = some d := by
  obtain ⟨d, heq, hcls⟩ := runFlattenT_shape_forest opts dom f
    (CMNode.mk (toClass "document") (attributes.map (fun p => (p.1, some p.2))) none none
      (if opts.enableSourceLocation then some loc else none) none) [] hf
  have hdoc : ∀ (st : List CMNode), onclosetag "document" st = st := by
    intro st
    simp [onclosetag]
  have hrun : runEvents opts dom
      (Event.openTag "document" attributes loc ::
        (flattenF f ++ [Event.closeTag "document"])) [] = [d] := by
    rw [runEvents_cons]
    have hopen : step opts dom [] (Event.openTag "document" attributes loc) =
        [CMNode.mk (toClass "document") (attributes.map (fun p => (p.1, some p.2))) none none
          (if opts.enableSourceLocation then some loc else none) none] := by
      simp [step, onopentag]
    rw [hopen, runEvents_append, heq, runEvents_cons, runEvents_nil]
    exact hdoc [d]
  refine ⟨d, hrun, hcls.trans rfl, ?_⟩
  rw [hrun]
  rfl

/-- C4 witness: the empty document stream. -/
theorem stack_balance_unique_document_witness :
    noDocF EForest.nil = true ∧
    (∃ d, runEvents defaultOptions emptyDom
        (Event.openTag "document" [] docLoc ::
          (flattenF EForest.nil ++ [Event.closeTag "document"])) [] = [d] ∧
      d.cls = toClass "document" ∧
      peek (runEvents defaultOptions emptyDom
        (Event.openTag "document" [] docLoc ::
          (flattenF EForest.nil ++ [Event.closeTag "document"])) []) = some d) :=
  ⟨rfl, stack_balance_unique_document defaultOptions emptyDom [] docLoc EForest.nil rfl⟩

/-- C5: a `list_item` editor node whose children convert to `rs` maps to
an Item whose single top-level child is a Paragraph holding exactly `rs`
in order; the Item itself never receives those children. -/
theorem list_item_wraps_children_in_paragraph (d : SlateData) (tx : Option String)
    (cs : List SlateNode) (rs : List CMNode) (h : mapList cs = Except.ok rs) :
    mapNode (SlateNode.element "list_item" d tx (some cs)) =
      Except.ok (mkNode (NS ++ ".Item") [] none
        (some [mkNode (NS ++ ".Paragraph") [] none (some rs)])) := by
  have e1 : mapNode (SlateNode.element "list_item" d tx (some cs)) =
      match mapInto (mkNode (NS ++ ".Paragraph") [] none (some [])) cs with
      | Except.error e => Except.error e
      | Except.ok first2 =>
        Except.ok ((mkNode (NS ++ ".Item") [] none
          (some [mkNode (NS ++ ".Paragraph") [] none (some [])])).withNodes
            (some [first2])) := rfl
  rw [e1, mapInto_eq_mapList cs (mkNode (NS ++ ".Paragraph") [] none (some [])) [] rfl, h]
  simp

/-- C5 witness: a list item with a single plain text child. -/
theorem list_item_wraps_children_in_paragraph_witness :
    mapList [SlateNode.text "hi" []] =
      Except.ok [mkNode (NS ++ ".Text") [] (some "hi") none] ∧
    mapNode (SlateNode.element "list_item" emptySlateData none
      (some [SlateNode.text "hi" []])) =
      Except.ok (mkNode (NS ++ ".Item") [] none
        (some [mkNode (NS ++ ".Paragraph") [] none
          (some [mkNode (NS ++ ".Text") [] (some "hi") none])])) :=
  ⟨rfl, list_item_wraps_children_in_paragraph emptySlateData none
    [SlateNode.text "hi" []] [mkNode (NS ++ ".Text") [] (some "hi") none] rfl⟩

/-- C6: without a code mark, the Mark Composer produces
Emph ⊃ Strong ⊃ Text when both bold and italic are present, Strong ⊃ Text
for bold only, Emph ⊃ Text for italic only, and the bare Text leaf with
the raw text otherwise. -/
theorem mark_composer_nesting (txt : String) (marks : List Mark)
    (hcode : marks.any (fun mark => mark.type == "code") = false) :
    handleText txt marks =
      (if marks.any (fun mark => mark.type == "bold") then
        (if marks.any (fun mark => mark.type == "italic") then
          mkNode (NS ++ ".Emph") [] none (some [mkNode (NS ++ ".Strong") [] none
            (some [mkNode (NS ++ ".Text") [] (some txt) none])])
        else mkNode (NS ++ ".Strong") [] none
          (some [mkNode (NS ++ ".Text") [] (some txt) none]))
      else (if marks.any (fun mark => mark.type == "italic") then
          mkNode (NS ++ ".Emph") [] none
            (some [mkNode (NS ++ ".Text") [] (some txt) none])
        else mkNode (NS ++ ".Text") [] (some txt) none)) := by
  cases hb : marks.any (fun mark => mark.type == "bold") <;>
    cases hi : marks.any (fun mark => mark.type == "italic") <;>
      simp [handleText, hcode, hb, hi]

/-- C6 witness: bold plus italic. -/
theorem mark_composer_nesting_witness :
    ([Mark.mk "bold", Mark.mk "italic"].any (fun mark => mark.type == "code") = false) ∧
    handleText "x" [Mark.mk "bold", Mark.mk "italic"] =
      (if [Mark.mk "bold", Mark.mk "italic"].any (fun mark => mark.type == "bold") then
        (if [Mark.mk "bold", Mark.mk "italic"].any (fun mark => mark.type == "italic") then
          mkNode (NS ++ ".Emph") [] none (some [mkNode (NS ++ ".Strong") [] none
            (some [mkNode (NS ++ ".Text") [] (some "x") none])])
        else mkNode (NS ++ ".Strong") [] none
          (some [mkNode (NS ++ ".Text") [] (some "x") none]))
      else (if [Mark.mk "bold", Mark.mk "italic"].any (fun mark => mark.type == "italic") then
          mkNode (NS ++ ".Emph") [] none
            (some [mkNode (NS ++ ".Text") [] (some "x") none])
        else mkNode (NS ++ ".Text") [] (some "x") none)) :=
  ⟨rfl, mark_composer_nesting "x" [Mark.mk "bold", Mark.mk "italic"] rfl⟩

/-- C7: with a code mark present, the Mark Composer returns a bare Code
leaf with the raw text, whatever other marks are present. -/
theorem code_mark_precedence (txt : String) (marks : List Mark)
    (hcode : marks.any (fun mark => mark.type == "code") = true) :
    handleText txt marks = mkNode (NS ++ ".Code") [] (some txt) none := by
  simp [handleText, hcode]

/-- C7 witness: code together with bold and italic. -/
theorem code_mark_precedence_witness :
    ([Mark.mk "code", Mark.mk "bold", Mark.mk "italic"].any
      (fun mark => mark.type == "code") = true) ∧
    handleText "x" [Mark.mk "code", Mark.mk "bold", Mark.mk "italic"] =
      mkNode (NS ++ ".Code") [] (some "x") none :=
  ⟨rfl, code_mark_precedence "x" [Mark.mk "code", Mark.mk "bold", Mark.mk "italic"] rfl⟩

/-- C8: an editor element node whose type is outside the recognized list
makes the whole conversion fail with the fatal error, wherever the node
sits among its siblings and whatever the parent is — no partial tree is
returned. -/
theorem unhandled_node_aborts (p : CMNode) (pre post : List SlateNode) (ty : String)
    (d : SlateData) (tx : Option String) (ch : Option (List SlateNode))
    (h : ty ∉ recognizedElementTypes) :
    isErr (mapInto p (pre ++ SlateNode.element ty d tx ch :: post)) = true :=
  mapInto_error_of_mem (SlateNode.element ty d tx ch) "Failed to process node" post
    (mapNode_unrecognized ty d tx ch h) pre p

/-- C8 witness: an unknown type under the document root. -/
theorem unhandled_node_aborts_witness :
    ("foo" ∉ recognizedElementTypes) ∧
    isErr (mapInto (mkNode (NS ++ ".Document")
        [("xmlns", some "http://commonmark.org/xml/1.0")] none (some []))
      ([] ++ SlateNode.element "foo" emptySlateData none none :: [])) = true :=
  ⟨by decide, unhandled_node_aborts _ [] [] "foo" emptySlateData none none (by decide)⟩

/-- C9: for every input string the HTML Fragment Inspector either returns
a tag record or the not-parseable outcome (`none`); in particular a
document with no root element yields `none`, and no error ever escapes
the `try`/`catch`. -/
theorem parseHtmlBlock_total_or_null (dom : Dom) (s : String) :
    ((∃ t, parseHtmlBlock dom s = some t) ∨ parseHtmlBlock dom s = none) ∧
    (dom s = [] → parseHtmlBlock dom s = none) := by
  constructor
  · cases h : parseHtmlBlock dom s with
    | some t => exact Or.inl ⟨t, rfl⟩
    | none => exact Or.inr rfl
  · intro hempty
    simp [parseHtmlBlock, parseHtmlBlockTry, hempty]

/-- C9 witness: a parser that finds no root element. -/
theorem parseHtmlBlock_total_or_null_witness :
    (emptyDom "<p>x" = [] → parseHtmlBlock emptyDom "<p>x" = none) ∧
    parseHtmlBlock emptyDom "<p>x" = none :=
  ⟨(parseHtmlBlock_total_or_null emptyDom "<p>x").2,
   (parseHtmlBlock_total_or_null emptyDom "<p>x").2 rfl⟩

/-- C10: the Mark Composer's output depends only on which of the three
mark types occur at least once in the marks list, so permuting or
duplicating entries leaves the result unchanged. -/
theorem handleText_depends_on_mark_presence (txt : String) (m1 m2 : List Mark)
    (hb : m1.any (fun mark => mark.type == "bold") =
          m2.any (fun mark => mark.type == "bold"))
    (hi : m1.any (fun mark => mark.type == "italic") =
          m2.any (fun mark => mark.type == "italic"))
    (hc : m1.any (fun mark => mark.type == "code") =
          m2.any (fun mark => mark.type == "code")) :
    handleText txt m1 = handleText txt m2 := by
  simp only [handleText, hb, hi, hc]

/-- C10 witness: a permuted and duplicated marks list. -/
theorem handleText_depends_on_mark_presence_witness :
    ([Mark.mk "bold", Mark.mk "italic"].any (fun mark => mark.type == "bold") =
      [Mark.mk "italic", Mark.mk "italic", Mark.mk "bold"].any
        (fun mark => mark.type == "bold")) ∧
    ([Mark.mk "bold", Mark.mk "italic"].any (fun mark => mark.type == "italic") =
      [Mark.mk "italic", Mark.mk "italic", Mark.mk "bold"].any
        (fun mark => mark.type == "italic")) ∧
    ([Mark.mk "bold", Mark.mk "italic"].any (fun mark => mark.type == "code") =
      [Mark.mk "italic", Mark.mk "italic", Mark.mk "bold"].any
        (fun mark => mark.type == "code")) ∧
    handleText "x" [Mark.mk "bold", Mark.mk "italic"] =
      handleText "x" [Mark.mk "italic", Mark.mk "italic", Mark.mk "bold"] :=
  ⟨rfl, rfl, rfl,
   handleText_depends_on_mark_presence "x" [Mark.mk "bold", Mark.mk "italic"]
     [Mark.mk "italic", Mark.mk "italic", Mark.mk "bold"] rfl rfl rfl⟩

end MT
